import Mathlib

/-!
Shallow embedding of the snapshot capture and temporal-diff engine of the
`factorioprints_monitor` repository (`monitoring/utils.py`,
`monitoring/models.py`, `monitoring/comments_scraper.py`,
`monitoring/management/commands/delete_snapshot.py`), together with proofs
about its behaviour.

Timestamps are modelled as a calendar day plus a sub-day tick; Django
querysets become Lean lists kept in storage (insertion) order; `objects.create`
with a `unique_together` constraint becomes an `Except`-valued insert that
fails on a constraint violation; `transaction.atomic` becomes `Except`
propagation in which the pre-transaction store remains the visible one on
error (rollback).
-/

namespace Monitoring

/-- A timezone-aware timestamp: calendar date (`day`) plus sub-day tick
(sub-second precision collapses into `tick`). -/
structure Ts where
  day : Nat
  tick : Nat
deriving DecidableEq, Repr

/-- Boolean `≤` on timestamps: lexicographic on (day, tick). -/
def Ts.le (a b : Ts) : Bool :=
  decide (a.day < b.day) || (decide (a.day = b.day) && decide (a.tick ≤ b.tick))

/-- `monitoring.models.Blueprint`: identity row, `url` unique, mutable `name`. -/
structure Blueprint where
  url : String
  name : String
deriving DecidableEq, Repr

/-- `monitoring.models.UserSnapshot`: one capture run;
`unique_together (snapshot_ts, user_url)`. -/
structure UserSnapshot where
  snapshot_ts : Ts
  user_url : String
deriving DecidableEq, Repr

/-- `monitoring.models.BlueprintSnapshot`: observed item state at one instant;
`unique_together (snapshot_ts, blueprint)`.  The foreign key to `Blueprint`
is represented by the blueprint's unique url. -/
structure BlueprintSnapshot where
  snapshot_ts : Ts
  blueprint_url : String
  name : String
  favourites : Nat
  total_comments : Nat
deriving DecidableEq, Repr

/-- `monitoring.models.CommentSnapshot`: one comment's observed state;
`unique_together (snapshot_ts, blueprint, comment_id)`. -/
structure CommentSnapshot where
  snapshot_ts : Ts
  blueprint_url : String
  comment_id : String
  author : String
  created_utc : Ts
  message_text : String
deriving DecidableEq, Repr

/-- The persistent store: the four relations, each in storage order. -/
structure Store where
  blueprints : List Blueprint
  userSnapshots : List UserSnapshot
  blueprintSnapshots : List BlueprintSnapshot
  commentSnapshots : List CommentSnapshot
deriving DecidableEq, Repr

/-! ## Fetch side: `comments_scraper.get_comments_async` and the listing -/

/-- One comment as produced by `_normalize` (the fields that the store keeps). -/
structure Comment where
  id : String
  author : String
  created_utc : Ts
  message_text : String
deriving DecidableEq, Repr

/-- The value returned by a comment-thread fetch:
`{'total_comments': ..., 'comments': [...]}`. -/
structure ThreadData where
  total_comments : Nat
  comments : List Comment
deriving DecidableEq, Repr

/-- The Disqus thread data extracted from the page: the cursor total and the
raw posts; a post is `none` when `_normalize` raises on it (a malformed
record, skipped individually). -/
structure RawThread where
  cursorTotal : Nat
  posts : List (Option Comment)
deriving DecidableEq, Repr

/-- The remote world one `get_comments_async(url)` call observes.
`gotoOk` covers the steps before the first inner `try` (browser launch,
`new_page`, `page.goto`): a failure there is an uncaught exception.
`iframeAppears` is whether the scroll loop finds the Disqus iframe before its
deadline (a miss raises `PWAsyncTimeout`, caught); `iframeHandle` is whether
`query_selector` then returns a handle; `threadData` is `none` when
`wait_for_selector` / `_extract_thread_data` raises (caught). -/
structure PageWorld where
  gotoOk : Bool
  iframeAppears : Bool
  iframeHandle : Bool
  threadData : Option RawThread
deriving DecidableEq, Repr

/-- Errors that escape the fetch layer. -/
inductive FetchErr where
  | navigation
deriving DecidableEq, Repr

/-- `comments_scraper.get_comments_async`: navigation failures propagate; the
scroll timeout, a missing iframe handle, and any extraction failure are caught
and yield `{total_comments: 0, comments: []}`; otherwise the cursor total and
the normalized posts (malformed ones skipped) are returned. -/
def get_comments_async (w : PageWorld) : Except FetchErr ThreadData :=
  if !w.gotoOk then .error .navigation
  else if !w.iframeAppears then .ok ⟨0, []⟩
  else if !w.iframeHandle then .ok ⟨0, []⟩
  else
    match w.threadData with
    | none => .ok ⟨0, []⟩
    | some raw => .ok ⟨raw.cursorTotal, raw.posts.filterMap id⟩

/-- The thread data a url resolves to when its fetch does not raise. -/
def resolved_thread (w : PageWorld) : ThreadData :=
  match get_comments_async w with
  | .ok t => t
  | .error _ => ⟨0, []⟩

/-- One item of the listing returned by `scrape_user_blueprints`:
`{'url': ..., 'name': ..., 'favorites': ...}`. -/
structure BPItem where
  url : String
  name : String
  favorites : Nat
deriving DecidableEq, Repr

/-- `utils._fetch_all_comments_concurrent`: one `get_comments_async` task per
blueprint, results collected into a url-keyed map; an exception in any task
propagates out of `asyncio.gather`.  The map is modelled as an association
list in task order (its content is order-independent, keyed by url). -/
def fetch_all_comments_concurrent (w : String → PageWorld) :
    List BPItem → Except FetchErr (List (String × ThreadData))
  | [] => .ok []
  | bp :: bps => do
    let data ← get_comments_async (w bp.url)
    let rest ← fetch_all_comments_concurrent w bps
    pure ((bp.url, data) :: rest)

/-- `comments_data.get(url, {"total_comments": 0, "comments": []})`. -/
def lookupThread (m : List (String × ThreadData)) (url : String) : ThreadData :=
  match m.find? (fun p => decide (p.fst = url)) with
  | some p => p.snd
  | none => ⟨0, []⟩

/-! ## Store writes -/

/-- A database error surfaced inside the transaction. -/
inductive DBErr where
  | uniqueViolation
deriving DecidableEq, Repr

/-- `UserSnapshot.objects.create`: fails on the
`(snapshot_ts, user_url)` uniqueness constraint. -/
def create_user_snapshot (s : Store) (ts : Ts) (user : String) :
    Except DBErr Store :=
  if s.userSnapshots.any (fun r => decide (r.snapshot_ts = ts ∧ r.user_url = user)) then
    .error .uniqueViolation
  else
    .ok { s with userSnapshots := s.userSnapshots ++ [⟨ts, user⟩] }

/-- `Blueprint.objects.get_or_create(url=..., defaults={'name': ...})`:
returns the existing row for the url, or inserts a new one with the captured
name. -/
def get_or_create_blueprint (s : Store) (url name : String) : Store × Blueprint :=
  match s.blueprints.find? (fun b => decide (b.url = url)) with
  | some b => (s, b)
  | none => ({ s with blueprints := s.blueprints ++ [⟨url, name⟩] }, ⟨url, name⟩)

/-- `BlueprintSnapshot.objects.create`: fails on the
`(snapshot_ts, blueprint)` uniqueness constraint. -/
def create_blueprint_snapshot (s : Store) (row : BlueprintSnapshot) :
    Except DBErr Store :=
  if s.blueprintSnapshots.any
      (fun r => decide (r.snapshot_ts = row.snapshot_ts ∧ r.blueprint_url = row.blueprint_url)) then
    .error .uniqueViolation
  else
    .ok { s with blueprintSnapshots := s.blueprintSnapshots ++ [row] }

/-- `CommentSnapshot.objects.create`: fails on the
`(snapshot_ts, blueprint, comment_id)` uniqueness constraint. -/
def create_comment_snapshot (s : Store) (row : CommentSnapshot) :
    Except DBErr Store :=
  if s.commentSnapshots.any
      (fun r => decide (r.snapshot_ts = row.snapshot_ts ∧ r.blueprint_url = row.blueprint_url ∧
        r.comment_id = row.comment_id)) then
    .error .uniqueViolation
  else
    .ok { s with commentSnapshots := s.commentSnapshots ++ [row] }

/-- The CommentSnapshot row created for one fetched comment of a blueprint. -/
def mkCommentRow (ts : Ts) (url : String) (c : Comment) : CommentSnapshot :=
  ⟨ts, url, c.id, c.author, c.created_utc, c.message_text⟩

/-- The inner loop of `take_snapshot`'s transaction: one
`CommentSnapshot.objects.create` per comment of the fetched thread, in
order. -/
def persist_comments (ts : Ts) (url : String) (s : Store) :
    List Comment → Except DBErr Store
  | [] => .ok s
  | c :: cs => do
    let s' ← create_comment_snapshot s (mkCommentRow ts url c)
    persist_comments ts url s' cs

/-- The body of `take_snapshot`'s per-blueprint loop: upsert the `Blueprint`,
create its `BlueprintSnapshot` (name/favourites from the listing item, total
from the fetched thread), then one `CommentSnapshot` per fetched comment. -/
def persist_item (ts : Ts) (threads : List (String × ThreadData)) (s : Store)
    (bp : BPItem) : Except DBErr Store := do
  let g := get_or_create_blueprint s bp.url bp.name
  let s1 := g.1
  let blueprint_obj := g.2
  let c_info := lookupThread threads bp.url
  let s2 ← create_blueprint_snapshot s1
    ⟨ts, blueprint_obj.url, bp.name, bp.favorites, c_info.total_comments⟩
  persist_comments ts blueprint_obj.url s2 c_info.comments

/-- The outer loop of `take_snapshot`'s transaction, one listed blueprint at
a time, in listing order. -/
def persist_items (ts : Ts) (threads : List (String × ThreadData)) (s : Store) :
    List BPItem → Except DBErr Store
  | [] => .ok s
  | bp :: bps => do
    let s' ← persist_item ts threads s bp
    persist_items ts threads s' bps

/-- The body of `with transaction.atomic():` in `utils.take_snapshot`:
create the `UserSnapshot`, then persist every listed blueprint in order. -/
def snapshot_transaction (s : Store) (ts : Ts) (user : String)
    (bps : List BPItem) (threads : List (String × ThreadData)) :
    Except DBErr Store := do
  let s1 ← create_user_snapshot s ts user
  persist_items ts threads s1 bps

/-- Errors escaping `take_snapshot`. -/
inductive SnapErr where
  | listingFailure
  | threadFetchFailure
  | persistenceFailure (e : DBErr)
deriving DecidableEq, Repr

/-- `utils.take_snapshot`: the capture instant is fixed first, all fetching
runs before any write, and all writes happen inside one atomic transaction.
The listing outcome and the per-url page worlds parameterise the remote
side; `ts` is the value of `datetime.now(timezone.utc)`. -/
def take_snapshot (s : Store) (ts : Ts) (user : String)
    (listing : Except FetchErr (List BPItem)) (w : String → PageWorld) :
    Except SnapErr (Store × Ts) :=
  match listing with
  | .error _ => .error .listingFailure
  | .ok bps =>
    match fetch_all_comments_concurrent w bps with
    | .error _ => .error .threadFetchFailure
    | .ok threads =>
      match snapshot_transaction s ts user bps threads with
      | .error e => .error (.persistenceFailure e)
      | .ok s2 => .ok (s2, ts)

/-- The store visible to readers after a capture attempt: the transaction's
result on success, the untouched pre-state on any error (rollback / nothing
was ever written). -/
def visible_store (s : Store) (ts : Ts) (user : String)
    (listing : Except FetchErr (List BPItem)) (w : String → PageWorld) : Store :=
  match take_snapshot s ts user listing w with
  | .ok (s2, _) => s2
  | .error _ => s

/-! ## Reads -/

/-- CaptureRun rows carrying a capture instant. -/
def runRowsAt (s : Store) (ts : Ts) : List UserSnapshot :=
  s.userSnapshots.filter (fun r => decide (r.snapshot_ts = ts))

/-- ItemSnapshot rows carrying a capture instant. -/
def itemRowsAt (s : Store) (ts : Ts) : List BlueprintSnapshot :=
  s.blueprintSnapshots.filter (fun r => decide (r.snapshot_ts = ts))

/-- CommentSnapshot rows carrying a capture instant. -/
def commentRowsAt (s : Store) (ts : Ts) : List CommentSnapshot :=
  s.commentSnapshots.filter (fun r => decide (r.snapshot_ts = ts))

/-- `CommentSnapshot.objects.filter(snapshot_ts=ts, blueprint=b).count()`. -/
def commentCount (s : Store) (ts : Ts) (url : String) : Nat :=
  (s.commentSnapshots.filter
    (fun c => decide (c.snapshot_ts = ts ∧ c.blueprint_url = url))).length

/-- ItemSnapshot rows for one (instant, blueprint) pair. -/
def itemRowsFor (s : Store) (ts : Ts) (url : String) : List BlueprintSnapshot :=
  s.blueprintSnapshots.filter
    (fun r => decide (r.snapshot_ts = ts ∧ r.blueprint_url = url))

/-- Maximum accumulator over timestamps (`order_by('-snapshot_ts').first()`
picks the greatest matching instant). -/
def max_ts_acc (acc : Option Ts) (t : Ts) : Option Ts :=
  match acc with
  | none => some t
  | some m => if Ts.le m t then some t else some m

/-- `UserSnapshot.objects.filter(user_url=u, snapshot_ts__date=d)
.order_by('-snapshot_ts').first()`: the greatest capture instant for that
user on that calendar date, if any. -/
def latest_snapshot_on (s : Store) (user : String) (d : Nat) : Option Ts :=
  ((s.userSnapshots.filter
      (fun r => decide (r.user_url = user ∧ r.snapshot_ts.day = d))).map
    (fun r => r.snapshot_ts)).foldl max_ts_acc none

/-- Does this item qualify for the report: strictly more comment rows at the
end instant than at the start instant (`num_new_comments > 0`). -/
def qualifies (s : Store) (ts1 ts2 : Ts) (b : BlueprintSnapshot) : Bool :=
  decide (0 < (commentCount s ts2 b.blueprint_url : Int) - (commentCount s ts1 b.blueprint_url : Int))

/-- The row appended for a qualifying item:
`[blueprint_url, name, str(num_new_comments), str(comments_at_end)]`. -/
def report_row (s : Store) (ts1 ts2 : Ts) (b : BlueprintSnapshot) : List String :=
  [b.blueprint_url, b.name,
    toString ((commentCount s ts2 b.blueprint_url : Int) - (commentCount s ts1 b.blueprint_url : Int)),
    toString (commentCount s ts2 b.blueprint_url)]

/-- The `result_rows` list built by `blueprints_with_new_comments`: iterate
the end instant's BlueprintSnapshot rows in storage order, keep a row for
each item whose comment-row count strictly increased. -/
def result_rows (s : Store) (ts1 ts2 : Ts) : List (List String) :=
  (itemRowsAt s ts2).filterMap
    (fun b => if qualifies s ts1 ts2 b then some (report_row s ts1 ts2 b) else none)

/-- CSV escaping applied to `row[1]` (the name): quote, doubling inner
quotes, only when the name contains a comma. -/
def escape_name (n : String) : String :=
  if n.contains ',' then "\"" ++ n.replace "\"" "\"\"" ++ "\"" else n

/-- Apply the name escaping to one emitted row. -/
def escape_row (r : List String) : List String :=
  match r with
  | [u, n, a, b] => [u, escape_name n, a, b]
  | other => other

/-- `utils.blueprints_with_new_comments`: resolve each date to that user's
latest run on it (missing start date reported first, then missing end date),
diff comment-row counts per end-run item, and render the CSV, or the
distinguished no-activity string. -/
def blueprints_with_new_comments (s : Store) (user : String)
    (start_date end_date : Nat) : String :=
  match latest_snapshot_on s user start_date with
  | none => "No snapshots found for start date " ++ toString start_date ++ "."
  | some ts1 =>
    match latest_snapshot_on s user end_date with
    | none => "No snapshots found for end date " ++ toString end_date ++ "."
    | some ts2 =>
      let rows := result_rows s ts1 ts2
      if rows.isEmpty then "No blueprints received new comments in this period."
      else
        String.intercalate "\n"
          ("blueprint_url,blueprint_name,num_of_new_comments,comments_num_on_end_date" ::
            rows.map (fun r => String.intercalate "," (escape_row r)))

/-! ## Deletion: `management/commands/delete_snapshot.py` -/

/-- The per-entity deletion counts the command reports. -/
structure DeleteResult where
  comments_deleted : Nat
  blueprints_deleted : Nat
  users_deleted : Nat
deriving DecidableEq, Repr

/-- `delete_snapshot.Command.handle`: inside one atomic transaction, delete
every CommentSnapshot, BlueprintSnapshot and UserSnapshot row carrying the
given instant and report the per-entity counts.  `Blueprint` rows are not
touched. -/
def delete_snapshot (s : Store) (ts : Ts) : Store × DeleteResult :=
  let deleted_comments := (s.commentSnapshots.filter (fun r => decide (r.snapshot_ts = ts))).length
  let deleted_blueprints := (s.blueprintSnapshots.filter (fun r => decide (r.snapshot_ts = ts))).length
  let deleted_users := (s.userSnapshots.filter (fun r => decide (r.snapshot_ts = ts))).length
  ({ s with
      commentSnapshots := s.commentSnapshots.filter (fun r => !decide (r.snapshot_ts = ts)),
      blueprintSnapshots := s.blueprintSnapshots.filter (fun r => !decide (r.snapshot_ts = ts)),
      userSnapshots := s.userSnapshots.filter (fun r => !decide (r.snapshot_ts = ts)) },
    ⟨deleted_comments, deleted_blueprints, deleted_users⟩)

/-! ## Concurrency cap: module-level configuration and the semaphore -/

/-- The ambient Django settings the orchestrator module reads at import
time: `getattr(settings, "SNAPSHOT_MAX_CONCURRENCY", 6)` (`none` when the
setting is absent or settings are unavailable). -/
structure Settings where
  snapshot_max_concurrency : Option Nat
deriving DecidableEq, Repr

/-- `utils.MAX_INSTANCES`: the semaphore capacity
`_fetch_all_comments_concurrent` creates, read from ambient settings with
default 6.  It is not a parameter of the orchestrator. -/
def MAX_INSTANCES (st : Settings) : Nat :=
  st.snapshot_max_concurrency.getD 6

/-- An event of the fetch phase: task `i` enters, or leaves, its
`async with sem:` block. -/
inductive FetchEv where
  | start (i : Nat)
  | finish (i : Nat)
deriving DecidableEq, Repr

/-- Tasks in flight after a trace of events. -/
def runningAfter (tr : List FetchEv) : List Nat :=
  tr.foldl
    (fun run e =>
      match e with
      | .start i => i :: run
      | .finish i => run.erase i)
    []

/-- Number of fetches in flight after a trace of events. -/
def inFlightAfter (tr : List FetchEv) : Nat :=
  (runningAfter tr).length

/-- Validity of an event trace under `asyncio.Semaphore cap`, starting from
a set of running tasks: a task may start only when fewer than `cap` are in
flight and it is not already running; only a running task may finish. -/
def semValidFrom (cap : Nat) (run : List Nat) : List FetchEv → Bool
  | [] => true
  | .start i :: tr =>
    decide (run.length < cap) && !run.contains i && semValidFrom cap (i :: run) tr
  | .finish i :: tr =>
    run.contains i && semValidFrom cap (run.erase i) tr

/-- The event traces the semaphore-gated `asyncio.gather` in
`_fetch_all_comments_concurrent` can produce under ambient settings `st`
for a given listing: each event names one of the listing's tasks, and the
trace respects `asyncio.Semaphore(MAX_INSTANCES)`. -/
def fetch_phase_schedule_ok (st : Settings) (bps : List BPItem)
    (tr : List FetchEv) : Bool :=
  semValidFrom (MAX_INSTANCES st) [] tr &&
    tr.all (fun e => match e with | .start i => decide (i < bps.length) | .finish i => decide (i < bps.length))

/-- Tasks running after more events, starting from a given running set. -/
def runningFrom (run : List Nat) (tr : List FetchEv) : List Nat :=
  tr.foldl
    (fun r e =>
      match e with
      | .start i => i :: r
      | .finish i => r.erase i)
    run

/-! ## Further spec-side definitions used to state the claims -/

/-- The capture instant is fresh for the store: no row of any snapshot
entity already carries it (true of `datetime.now` against history). -/
def fresh_instant (s : Store) (ts : Ts) : Prop :=
  (∀ r ∈ s.userSnapshots, ¬r.snapshot_ts = ts) ∧
  (∀ r ∈ s.blueprintSnapshots, ¬r.snapshot_ts = ts) ∧
  (∀ r ∈ s.commentSnapshots, ¬r.snapshot_ts = ts)

/-- The ContentItem (`Blueprint`) rows carrying a given url. -/
def blueprintRowsFor (s : Store) (u : String) : List Blueprint :=
  s.blueprints.filter (fun b => decide (b.url = u))

/-- CommentSnapshot rows for one (instant, blueprint) pair. -/
def commentRowsFor (s : Store) (ts : Ts) (url : String) : List CommentSnapshot :=
  s.commentSnapshots.filter
    (fun c => decide (c.snapshot_ts = ts ∧ c.blueprint_url = url))

/-- The BlueprintSnapshot row `take_snapshot` creates for one listed item. -/
def mkBPRow (ts : Ts) (threads : List (String × ThreadData)) (bp : BPItem) :
    BlueprintSnapshot :=
  ⟨ts, bp.url, bp.name, bp.favorites, (lookupThread threads bp.url).total_comments⟩

/-- The report rows a run contributes for one listed item. -/
def mkCommentRows (ts : Ts) (threads : List (String × ThreadData)) (bp : BPItem) :
    List CommentSnapshot :=
  (lookupThread threads bp.url).comments.map (mkCommentRow ts bp.url)

/-- Lexicographic strict order on character lists (the usual string order),
written out so it evaluates. -/
def charListLt : List Char → List Char → Bool
  | [], [] => false
  | [], _ :: _ => true
  | _ :: _, [] => false
  | a :: as, b :: bs => decide (a < b) || (decide (a = b) && charListLt as bs)

/-- Strict lexicographic order on strings, via their character lists. -/
def strLtB (a b : String) : Bool :=
  charListLt a.data b.data

/-- Are the emitted report rows in ascending order of the name column
(`row[1]`): no row is followed by one with a strictly smaller name. -/
def names_ascending : List (List String) → Bool
  | r1 :: r2 :: rest =>
    !strLtB (r2.getD 1 "") (r1.getD 1 "") && names_ascending (r2 :: rest)
  | _ => true

/-- Written from the spec (§4.3 steps 3-4): a row appears in the diff output
exactly for an end-run item whose comment-row count strictly increased, and
it reports the item url, item name, the count delta and the end count. -/
def spec_diff_rows (s : Store) (ts1 ts2 : Ts) : Prop :=
  ∀ r, r ∈ result_rows s ts1 ts2 ↔
    ∃ b ∈ itemRowsAt s ts2,
      commentCount s ts1 b.blueprint_url < commentCount s ts2 b.blueprint_url ∧
      r = [b.blueprint_url, b.name,
        toString ((commentCount s ts2 b.blueprint_url : Int) -
          (commentCount s ts1 b.blueprint_url : Int)),
        toString (commentCount s ts2 b.blueprint_url)]

/-- Two stores that agree everywhere except possibly on the
`total_comments` field of their BlueprintSnapshot rows. -/
def same_but_totals (s s' : Store) : Prop :=
  s'.blueprints = s.blueprints ∧
  s'.userSnapshots = s.userSnapshots ∧
  s'.commentSnapshots = s.commentSnapshots ∧
  List.Forall₂
    (fun a b : BlueprintSnapshot =>
      a.snapshot_ts = b.snapshot_ts ∧ a.blueprint_url = b.blueprint_url ∧
        a.name = b.name ∧ a.favourites = b.favourites)
    s.blueprintSnapshots s'.blueprintSnapshots

/-! ## Concrete scenarios used to witness the theorems -/

/-- A remote world in which every page resolves: cursor total 5, one
well-formed post and one malformed (skipped) post. -/
def demo_world : String → PageWorld :=
  fun _ => ⟨true, true, true, some ⟨5, [some ⟨"c1", "a", ⟨1, 0⟩, "m"⟩, none]⟩⟩

/-- The empty store. -/
def empty_store : Store := ⟨[], [], [], []⟩

/-- The one-item listing used in the witness capture. -/
def demo_bps : List BPItem := [⟨"bx", "nx", 2⟩]

/-- The store produced by capturing `demo_bps` against `demo_world` from the
empty store at instant ⟨1,0⟩ for user "u". -/
def demo_store1 : Store :=
  ⟨[⟨"bx", "nx"⟩], [⟨⟨1, 0⟩, "u"⟩], [⟨⟨1, 0⟩, "bx", "nx", 2, 5⟩],
    [⟨⟨1, 0⟩, "bx", "c1", "a", ⟨1, 0⟩, "m"⟩]⟩

/-- `demo_store1` with the stored `total_comments` field changed to 99. -/
def demo_store1_totals : Store :=
  ⟨[⟨"bx", "nx"⟩], [⟨⟨1, 0⟩, "u"⟩], [⟨⟨1, 0⟩, "bx", "nx", 2, 99⟩],
    [⟨⟨1, 0⟩, "bx", "c1", "a", ⟨1, 0⟩, "m"⟩]⟩

/-- A store with two runs for user "u" (two on day 1, one on day 2), an item
"ua" present in both runs gaining one comment, and an item "ub" present only
in the end run. -/
def c4_store : Store :=
  ⟨[⟨"ua", "a"⟩, ⟨"ub", "b"⟩],
    [⟨⟨1, 0⟩, "u"⟩, ⟨⟨1, 5⟩, "u"⟩, ⟨⟨2, 0⟩, "u"⟩],
    [⟨⟨1, 5⟩, "ua", "a", 0, 1⟩, ⟨⟨2, 0⟩, "ua", "a", 0, 3⟩, ⟨⟨2, 0⟩, "ub", "b", 0, 2⟩],
    [⟨⟨1, 5⟩, "ua", "c1", "x", ⟨1, 0⟩, "m"⟩,
      ⟨⟨2, 0⟩, "ua", "c1", "x", ⟨1, 0⟩, "m"⟩,
      ⟨⟨2, 0⟩, "ua", "c2", "y", ⟨1, 2⟩, "m"⟩,
      ⟨⟨2, 0⟩, "ub", "c3", "z", ⟨1, 3⟩, "m"⟩]⟩

/-- A store whose end-run ItemSnapshot rows sit in storage order "b" before
"a", both items qualifying for the diff report. -/
def c5_store : Store :=
  ⟨[⟨"ub", "b"⟩, ⟨"ua", "a"⟩],
    [⟨⟨1, 0⟩, "u"⟩, ⟨⟨2, 0⟩, "u"⟩],
    [⟨⟨2, 0⟩, "ub", "b", 0, 1⟩, ⟨⟨2, 0⟩, "ua", "a", 0, 1⟩],
    [⟨⟨2, 0⟩, "ub", "c1", "x", ⟨2, 0⟩, "m"⟩, ⟨⟨2, 0⟩, "ua", "c2", "y", ⟨2, 0⟩, "m"⟩]⟩

/-! ## Order lemmas on timestamps -/

theorem Ts.le_iff (a b : Ts) :
    Ts.le a b = true ↔ a.day < b.day ∨ (a.day = b.day ∧ a.tick ≤ b.tick) := by
  simp [Ts.le]

theorem Ts.le_refl (a : Ts) : Ts.le a a = true := by
  simp [Ts.le_iff]

theorem Ts.le_total (a b : Ts) : Ts.le a b = true ∨ Ts.le b a = true := by
  simp only [Ts.le_iff]
  omega

theorem Ts.le_trans {a b c : Ts} (h1 : Ts.le a b = true) (h2 : Ts.le b c = true) :
    Ts.le a c = true := by
  simp only [Ts.le_iff] at *
  omega

/-! ## Shapes of the successful row-creation operations -/

theorem create_user_snapshot_ok {s : Store} {ts : Ts} {user : String} {s' : Store}
    (h : create_user_snapshot s ts user = .ok s') :
    s.userSnapshots.any (fun r => decide (r.snapshot_ts = ts ∧ r.user_url = user)) = false ∧
      s' = { s with userSnapshots := s.userSnapshots ++ [⟨ts, user⟩] } := by
  unfold create_user_snapshot at h
  split at h
  · exact absurd h (by simp)
  · next hc =>
    refine ⟨by simpa using hc, ?_⟩
    injection h with h
    exact h.symm

theorem create_blueprint_snapshot_ok {s : Store} {row : BlueprintSnapshot} {s' : Store}
    (h : create_blueprint_snapshot s row = .ok s') :
    s' = { s with blueprintSnapshots := s.blueprintSnapshots ++ [row] } := by
  unfold create_blueprint_snapshot at h
  split at h
  · exact absurd h (by simp)
  · injection h with h
    exact h.symm

theorem create_comment_snapshot_ok {s : Store} {row : CommentSnapshot} {s' : Store}
    (h : create_comment_snapshot s row = .ok s') :
    s' = { s with commentSnapshots := s.commentSnapshots ++ [row] } := by
  unfold create_comment_snapshot at h
  split at h
  · exact absurd h (by simp)
  · injection h with h
    exact h.symm

theorem get_or_create_blueprint_fst_fields (s : Store) (url name : String) :
    (get_or_create_blueprint s url name).1.userSnapshots = s.userSnapshots ∧
      (get_or_create_blueprint s url name).1.blueprintSnapshots = s.blueprintSnapshots ∧
      (get_or_create_blueprint s url name).1.commentSnapshots = s.commentSnapshots := by
  unfold get_or_create_blueprint
  cases h : s.blueprints.find? (fun b => decide (b.url = url)) <;> simp

theorem get_or_create_blueprint_snd_url (s : Store) (url name : String) :
    (get_or_create_blueprint s url name).2.url = url := by
  unfold get_or_create_blueprint
  cases h : s.blueprints.find? (fun b => decide (b.url = url)) with
  | none => simp
  | some b =>
    have hb : b.url = url := by simpa using List.find?_some h
    simp [hb]

/-! ## Shapes of the successful transaction loops -/

theorem persist_comments_ok {ts : Ts} {url : String} {cs : List Comment} :
    ∀ {s s' : Store}, persist_comments ts url s cs = .ok s' →
      s'.blueprints = s.blueprints ∧ s'.userSnapshots = s.userSnapshots ∧
        s'.blueprintSnapshots = s.blueprintSnapshots ∧
        s'.commentSnapshots = s.commentSnapshots ++ cs.map (mkCommentRow ts url) := by
  induction cs with
  | nil =>
    intro s s' h
    simp only [persist_comments] at h
    injection h with h
    subst h
    simp
  | cons c cs ih =>
    intro s s' h
    simp only [persist_comments] at h
    cases hc : create_comment_snapshot s (mkCommentRow ts url c) with
    | error e => rw [hc] at h; exact absurd h (by simp [Bind.bind, Except.bind])
    | ok s1 =>
      rw [hc] at h
      simp only [Bind.bind, Except.bind] at h
      obtain ⟨h1, h2, h3, h4⟩ := ih h
      obtain hs1 := create_comment_snapshot_ok hc
      subst hs1
      simp_all

theorem persist_item_ok {ts : Ts} {threads : List (String × ThreadData)}
    {s : Store} {bp : BPItem} {s' : Store}
    (h : persist_item ts threads s bp = .ok s') :
    s'.userSnapshots = s.userSnapshots ∧
      s'.blueprintSnapshots = s.blueprintSnapshots ++ [mkBPRow ts threads bp] ∧
      s'.commentSnapshots = s.commentSnapshots ++ mkCommentRows ts threads bp ∧
      s'.blueprints = (get_or_create_blueprint s bp.url bp.name).1.blueprints := by
  simp only [persist_item] at h
  obtain ⟨hu, hb, hcm⟩ := get_or_create_blueprint_fst_fields s bp.url bp.name
  obtain hurl := get_or_create_blueprint_snd_url s bp.url bp.name
  cases hc : create_blueprint_snapshot (get_or_create_blueprint s bp.url bp.name).1
      ⟨ts, (get_or_create_blueprint s bp.url bp.name).2.url, bp.name, bp.favorites,
        (lookupThread threads bp.url).total_comments⟩ with
  | error e => rw [hc] at h; exact absurd h (by simp [Bind.bind, Except.bind])
  | ok s2 =>
    rw [hc] at h
    simp only [Bind.bind, Except.bind] at h
    obtain hs2 := create_blueprint_snapshot_ok hc
    obtain ⟨p1, p2, p3, p4⟩ := persist_comments_ok h
    subst hs2
    simp [p1, p2, p3, p4, hu, hb, hcm, hurl, mkBPRow, mkCommentRows]

theorem persist_items_ok {ts : Ts} {threads : List (String × ThreadData)}
    {bps : List BPItem} :
    ∀ {s s' : Store}, persist_items ts threads s bps = .ok s' →
      s'.userSnapshots = s.userSnapshots ∧
        s'.blueprintSnapshots = s.blueprintSnapshots ++ bps.map (mkBPRow ts threads) ∧
        s'.commentSnapshots = s.commentSnapshots ++ (bps.map (mkCommentRows ts threads)).flatten := by
  induction bps with
  | nil =>
    intro s s' h
    simp only [persist_items] at h
    injection h with h
    subst h
    simp
  | cons bp bps ih =>
    intro s s' h
    simp only [persist_items] at h
    cases hc : persist_item ts threads s bp with
    | error e => rw [hc] at h; exact absurd h (by simp [Bind.bind, Except.bind])
    | ok s1 =>
      rw [hc] at h
      simp only [Bind.bind, Except.bind] at h
      obtain ⟨q1, q2, q3, _⟩ := persist_item_ok hc
      obtain ⟨h1, h2, h3⟩ := ih h
      refine ⟨by rw [h1, q1], ?_, ?_⟩
      · rw [h2, q2]; simp
      · rw [h3, q3]; simp

theorem snapshot_transaction_ok {s : Store} {ts : Ts} {user : String}
    {bps : List BPItem} {threads : List (String × ThreadData)} {s' : Store}
    (h : snapshot_transaction s ts user bps threads = .ok s') :
    s.userSnapshots.any (fun r => decide (r.snapshot_ts = ts ∧ r.user_url = user)) = false ∧
      s'.userSnapshots = s.userSnapshots ++ [⟨ts, user⟩] ∧
      s'.blueprintSnapshots = s.blueprintSnapshots ++ bps.map (mkBPRow ts threads) ∧
      s'.commentSnapshots = s.commentSnapshots ++ (bps.map (mkCommentRows ts threads)).flatten := by
  unfold snapshot_transaction at h
  cases hc : create_user_snapshot s ts user with
  | error e => rw [hc] at h; exact absurd h (by simp [Bind.bind, Except.bind])
  | ok s1 =>
    rw [hc] at h
    simp only [Bind.bind, Except.bind] at h
    obtain ⟨hg, hs1⟩ := create_user_snapshot_ok hc
    obtain ⟨h1, h2, h3⟩ := persist_items_ok h
    subst hs1
    exact ⟨hg, by simpa using h1, by simpa using h2, by simpa using h3⟩

theorem take_snapshot_ok {s : Store} {ts : Ts} {user : String} {bps : List BPItem}
    {w : String → PageWorld} {s' : Store} {ts' : Ts}
    (h : take_snapshot s ts user (.ok bps) w = .ok (s', ts')) :
    ts' = ts ∧ ∃ threads, fetch_all_comments_concurrent w bps = .ok threads ∧
      snapshot_transaction s ts user bps threads = .ok s' := by
  simp only [take_snapshot] at h
  cases hf : fetch_all_comments_concurrent w bps with
  | error e => simp only [hf] at h; exact absurd h (by simp)
  | ok threads =>
    simp only [hf] at h
    cases ht : snapshot_transaction s ts user bps threads with
    | error e => simp only [ht] at h; exact absurd h (by simp)
    | ok s2 =>
      simp only [ht, Except.ok.injEq, Prod.mk.injEq] at h
      obtain ⟨h1, h2⟩ := h
      exact ⟨h2.symm, threads, rfl, by rw [← h1, ht]⟩

/-! ## Fetch-side lemmas -/

theorem get_comments_async_ok_of_goto {w : PageWorld} (h : w.gotoOk = true) :
    get_comments_async w = .ok (resolved_thread w) := by
  cases hif : w.iframeAppears <;> cases hih : w.iframeHandle <;>
    cases htd : w.threadData <;>
    simp [get_comments_async, resolved_thread, h, hif, hih, htd]

theorem fetch_all_resolves {w : String → PageWorld} (hres : ∀ u, (w u).gotoOk = true) :
    ∀ bps : List BPItem,
      fetch_all_comments_concurrent w bps =
        .ok (bps.map (fun bp => (bp.url, resolved_thread (w bp.url)))) := by
  intro bps
  induction bps with
  | nil => rfl
  | cons bp bps ih =>
    simp only [fetch_all_comments_concurrent, get_comments_async_ok_of_goto (hres bp.url), ih,
      Bind.bind, Except.bind, List.map_cons]
    rfl

theorem fetch_all_ok_shape {w : String → PageWorld} :
    ∀ {bps : List BPItem} {m : List (String × ThreadData)},
      fetch_all_comments_concurrent w bps = .ok m →
      m.map Prod.fst = bps.map BPItem.url := by
  intro bps
  induction bps with
  | nil =>
    intro m h
    simp only [fetch_all_comments_concurrent] at h
    injection h with h
    subst h
    rfl
  | cons bp bps ih =>
    intro m h
    simp only [fetch_all_comments_concurrent] at h
    cases hg : get_comments_async (w bp.url) with
    | error e => rw [hg] at h; exact absurd h (by simp [Bind.bind, Except.bind])
    | ok data =>
      rw [hg] at h
      cases hr : fetch_all_comments_concurrent w bps with
      | error e => rw [hr] at h; exact absurd h (by simp [Bind.bind, Except.bind])
      | ok rest =>
        rw [hr] at h
        simp only [Bind.bind, Except.bind, pure, Except.pure, Except.ok.injEq] at h
        subst h
        simpa using ih hr

theorem lookupThread_resolved {w : String → PageWorld} :
    ∀ {bps : List BPItem} {bp : BPItem}, bp ∈ bps →
      lookupThread (bps.map (fun x => (x.url, resolved_thread (w x.url)))) bp.url =
        resolved_thread (w bp.url) := by
  intro bps
  induction bps with
  | nil => intro bp h; cases h
  | cons a rest ih =>
    intro bp hmem
    by_cases hau : a.url = bp.url
    · simp [lookupThread, List.find?_cons, hau]
    · have hbp : bp ∈ rest := by
        cases List.mem_cons.mp hmem with
        | inl h => exact absurd (congrArg BPItem.url h.symm) hau
        | inr h => exact h
      have := ih hbp
      simpa [lookupThread, List.find?_cons, hau] using this

/-! ## Generic list lemmas -/

theorem filter_key_single {α : Type} (key : α → String) :
    ∀ {l : List α} {a : α} {u : String},
      (l.map key).Nodup → a ∈ l → key a = u →
      l.filter (fun x => decide (key x = u)) = [a] := by
  intro l
  induction l with
  | nil => intro a u _ hmem; cases hmem
  | cons b rest ih =>
    intro a u hnodup hmem hkey
    have hnodup' : (∀ x ∈ rest, ¬key x = key b) ∧ (List.map key rest).Nodup := by
      simpa using hnodup
    obtain ⟨hb, hrest⟩ := hnodup'
    by_cases hbu : key b = u
    · have hab : a = b := by
        cases List.mem_cons.mp hmem with
        | inl h => exact h
        | inr h => exact absurd (hkey.trans hbu.symm) (hb a h)
      have hnone : rest.filter (fun x => decide (key x = u)) = [] := by
        rw [List.filter_eq_nil_iff]
        intro x hx
        simp only [decide_eq_true_eq]
        intro hxu
        exact hb x hx (hxu.trans hbu.symm)
      simp [List.filter_cons, hbu, hnone, hab]
    · have hbp : a ∈ rest := by
        cases List.mem_cons.mp hmem with
        | inl h => exact absurd (by rw [← h, hkey]) hbu
        | inr h => exact h
      simp [List.filter_cons, hbu, ih hrest hbp hkey]

theorem filterMap_if {α β : Type} (p : α → Bool) (g : α → β) :
    ∀ l : List α,
      l.filterMap (fun b => if p b then some (g b) else none) = (l.filter p).map g := by
  intro l
  induction l with
  | nil => rfl
  | cons a rest ih =>
    by_cases ha : p a <;> simp [List.filterMap_cons, List.filter_cons, ha, ih]

/-! ## Reads on a store in which the instant is fresh -/

theorem runRowsAt_nil_of_fresh {s : Store} {ts : Ts} (h : fresh_instant s ts) :
    runRowsAt s ts = [] := by
  rw [runRowsAt, List.filter_eq_nil_iff]
  intro r hr
  simpa using h.1 r hr

theorem itemRowsAt_nil_of_fresh {s : Store} {ts : Ts} (h : fresh_instant s ts) :
    itemRowsAt s ts = [] := by
  rw [itemRowsAt, List.filter_eq_nil_iff]
  intro r hr
  simpa using h.2.1 r hr

theorem commentRowsAt_nil_of_fresh {s : Store} {ts : Ts} (h : fresh_instant s ts) :
    commentRowsAt s ts = [] := by
  rw [commentRowsAt, List.filter_eq_nil_iff]
  intro r hr
  simpa using h.2.2 r hr

theorem itemRowsFor_nil_of_fresh {s : Store} {ts : Ts} {u : String}
    (h : fresh_instant s ts) :
    itemRowsFor s ts u = [] := by
  rw [itemRowsFor, List.filter_eq_nil_iff]
  intro r hr
  simp [h.2.1 r hr]

theorem commentRowsFor_nil_of_fresh {s : Store} {ts : Ts} {u : String}
    (h : fresh_instant s ts) :
    commentRowsFor s ts u = [] := by
  rw [commentRowsFor, List.filter_eq_nil_iff]
  intro r hr
  simp [h.2.2 r hr]

/-! ## Rows created by a successful capture -/

theorem mem_mkCommentRows {ts : Ts} {threads : List (String × ThreadData)}
    {x : BPItem} {c : CommentSnapshot} (h : c ∈ mkCommentRows ts threads x) :
    c.snapshot_ts = ts ∧ c.blueprint_url = x.url := by
  rw [mkCommentRows] at h
  obtain ⟨cc, _, hcc⟩ := List.mem_map.mp h
  rw [← hcc]
  exact ⟨rfl, rfl⟩

theorem filter_flatten_mkCommentRows {ts : Ts} {threads : List (String × ThreadData)} :
    ∀ {bps : List BPItem} {bp : BPItem}, (bps.map BPItem.url).Nodup → bp ∈ bps →
      ((bps.map (mkCommentRows ts threads)).flatten.filter
        (fun c => decide (c.snapshot_ts = ts ∧ c.blueprint_url = bp.url)))
      = mkCommentRows ts threads bp := by
  intro bps
  induction bps with
  | nil => intro bp _ hmem; cases hmem
  | cons a rest ih =>
    intro bp hnodup hmem
    have hnodup' : (∀ x ∈ rest, ¬x.url = a.url) ∧ (rest.map BPItem.url).Nodup := by
      simpa using hnodup
    obtain ⟨ha, hrest⟩ := hnodup'
    simp only [List.map_cons, List.flatten_cons, List.filter_append]
    by_cases hau : a.url = bp.url
    · have hab : a = bp := by
        cases List.mem_cons.mp hmem with
        | inl h => exact h.symm
        | inr h => exact absurd hau.symm (ha bp h)
      subst hab
      have h1 : (mkCommentRows ts threads a).filter
          (fun c => decide (c.snapshot_ts = ts ∧ c.blueprint_url = a.url)) =
          mkCommentRows ts threads a := by
        rw [List.filter_eq_self]
        intro c hc
        obtain ⟨hc1, hc2⟩ := mem_mkCommentRows hc
        simp [hc1, hc2]
      have h2 : ((rest.map (mkCommentRows ts threads)).flatten.filter
          (fun c => decide (c.snapshot_ts = ts ∧ c.blueprint_url = a.url))) = [] := by
        rw [List.filter_eq_nil_iff]
        intro c hc
        obtain ⟨l, hl, hcl⟩ := List.mem_flatten.mp hc
        obtain ⟨x, hx, hxl⟩ := List.mem_map.mp hl
        obtain ⟨-, hcu⟩ := mem_mkCommentRows (hxl ▸ hcl)
        simp only [decide_eq_true_eq, not_and]
        intro _
        rw [hcu]
        exact fun he => ha x hx he
      rw [h1, h2, List.append_nil]
    · have hbp : bp ∈ rest := by
        cases List.mem_cons.mp hmem with
        | inl h => exact absurd (congrArg BPItem.url h).symm hau
        | inr h => exact h
      have h1 : (mkCommentRows ts threads a).filter
          (fun c => decide (c.snapshot_ts = ts ∧ c.blueprint_url = bp.url)) = [] := by
        rw [List.filter_eq_nil_iff]
        intro c hc
        obtain ⟨-, hcu⟩ := mem_mkCommentRows hc
        simp only [decide_eq_true_eq, not_and]
        intro _
        rw [hcu]
        exact hau
      rw [h1, List.nil_append]
      exact ih hrest hbp

theorem take_snapshot_rows {s : Store} {ts : Ts} {user : String} {bps : List BPItem}
    {w : String → PageWorld} {s' : Store}
    (hnodup : (bps.map BPItem.url).Nodup) (hres : ∀ u, (w u).gotoOk = true)
    (hfresh : fresh_instant s ts)
    (h : take_snapshot s ts user (.ok bps) w = .ok (s', ts)) :
    ∀ bp ∈ bps,
      itemRowsFor s' ts bp.url =
        [⟨ts, bp.url, bp.name, bp.favorites, (resolved_thread (w bp.url)).total_comments⟩] ∧
      commentRowsFor s' ts bp.url =
        (resolved_thread (w bp.url)).comments.map (mkCommentRow ts bp.url) := by
  obtain ⟨-, threads, hf, ht⟩ := take_snapshot_ok h
  have hth : threads = bps.map (fun x => (x.url, resolved_thread (w x.url))) := by
    have hall := fetch_all_resolves hres bps
    rw [hf] at hall
    injection hall
  subst hth
  obtain ⟨-, -, hbs, hcs⟩ := snapshot_transaction_ok ht
  intro bp hmem
  have hlook := lookupThread_resolved (w := w) hmem
  constructor
  · rw [itemRowsFor, hbs, List.filter_append]
    have hleft := itemRowsFor_nil_of_fresh (u := bp.url) hfresh
    rw [itemRowsFor] at hleft
    rw [hleft, List.nil_append, List.filter_map]
    have hcong : (bps.filter
        ((fun r => decide (r.snapshot_ts = ts ∧ r.blueprint_url = bp.url)) ∘
          (mkBPRow ts (bps.map (fun x => (x.url, resolved_thread (w x.url))))))) =
        bps.filter (fun x => decide (BPItem.url x = bp.url)) := by
      apply List.filter_congr
      intro x _
      simp [mkBPRow]
    rw [hcong, filter_key_single BPItem.url hnodup hmem rfl]
    simp [mkBPRow, hlook]
  · rw [commentRowsFor, hcs, List.filter_append]
    have hleft := commentRowsFor_nil_of_fresh (u := bp.url) hfresh
    rw [commentRowsFor] at hleft
    rw [hleft, List.nil_append, filter_flatten_mkCommentRows hnodup hmem]
    rw [mkCommentRows, hlook]

/-! ## Evolution of the ContentItem (Blueprint) relation -/

theorem get_or_create_rows_preserved {s : Store} {url name u : String}
    (hu : blueprintRowsFor s u ≠ [] ∨ u ≠ url) :
    blueprintRowsFor ((get_or_create_blueprint s url name).1) u = blueprintRowsFor s u := by
  unfold get_or_create_blueprint
  cases hf : s.blueprints.find? (fun b => decide (b.url = url)) with
  | some b => simp
  | none =>
    have hne : u ≠ url := by
      rcases hu with hrows | hne
      · intro hequ
        subst hequ
        refine absurd ?_ hrows
        rw [blueprintRowsFor, List.filter_eq_nil_iff]
        intro b hb
        simpa using List.find?_eq_none.mp hf b hb
      · exact hne
    simp [blueprintRowsFor, List.filter_append, List.filter_cons, Ne.symm hne]

theorem get_or_create_rows_new {s : Store} {url name : String}
    (hnone : blueprintRowsFor s url = []) :
    blueprintRowsFor ((get_or_create_blueprint s url name).1) url = [⟨url, name⟩] := by
  unfold get_or_create_blueprint
  cases hf : s.blueprints.find? (fun b => decide (b.url = url)) with
  | some b =>
    have hb1 : b.url = url := by simpa using List.find?_some hf
    have hb2 : b ∈ s.blueprints := List.mem_of_find?_eq_some hf
    have hmem : b ∈ blueprintRowsFor s url := by
      rw [blueprintRowsFor]
      exact List.mem_filter.mpr ⟨hb2, by simp [hb1]⟩
    rw [hnone] at hmem
    cases hmem
  | none =>
    rw [blueprintRowsFor] at hnone
    simp [blueprintRowsFor, List.filter_append, List.filter_cons, hnone]

theorem persist_item_rows_preserved {ts : Ts} {threads : List (String × ThreadData)}
    {st st' : Store} {bp : BPItem} {u : String}
    (h : persist_item ts threads st bp = .ok st')
    (hu : blueprintRowsFor st u ≠ [] ∨ u ≠ bp.url) :
    blueprintRowsFor st' u = blueprintRowsFor st u := by
  obtain ⟨-, -, -, hb⟩ := persist_item_ok h
  have := @get_or_create_rows_preserved st bp.url bp.name u hu
  rw [blueprintRowsFor, hb, ← blueprintRowsFor]
  exact this

theorem persist_item_rows_new {ts : Ts} {threads : List (String × ThreadData)}
    {st st' : Store} {bp : BPItem}
    (h : persist_item ts threads st bp = .ok st')
    (hnone : blueprintRowsFor st bp.url = []) :
    blueprintRowsFor st' bp.url = [⟨bp.url, bp.name⟩] := by
  obtain ⟨-, -, -, hb⟩ := persist_item_ok h
  have := @get_or_create_rows_new st bp.url bp.name hnone
  rw [blueprintRowsFor, hb, ← blueprintRowsFor]
  exact this

theorem persist_items_rows_preserved {ts : Ts} {threads : List (String × ThreadData)}
    {bps : List BPItem} :
    ∀ {st st' : Store} {u : String},
      persist_items ts threads st bps = .ok st' →
      (blueprintRowsFor st u ≠ [] ∨ ∀ bp ∈ bps, bp.url ≠ u) →
      blueprintRowsFor st' u = blueprintRowsFor st u := by
  induction bps with
  | nil =>
    intro st st' u h _
    simp only [persist_items] at h
    injection h with h
    rw [h]
  | cons a rest ih =>
    intro st st' u h hu
    simp only [persist_items] at h
    cases hc : persist_item ts threads st a with
    | error e => rw [hc] at h; exact absurd h (by simp [Bind.bind, Except.bind])
    | ok s1 =>
      rw [hc] at h
      simp only [Bind.bind, Except.bind] at h
      have hstep : blueprintRowsFor s1 u = blueprintRowsFor st u := by
        apply persist_item_rows_preserved hc
        rcases hu with hrows | hall
        · exact Or.inl hrows
        · exact Or.inr (Ne.symm (hall a (List.mem_cons_self a rest)))
      have hrest : blueprintRowsFor st' u = blueprintRowsFor s1 u := by
        apply ih h
        rcases hu with hrows | hall
        · exact Or.inl (hstep ▸ hrows)
        · exact Or.inr (fun bp hbp => hall bp (List.mem_cons_of_mem a hbp))
      rw [hrest, hstep]

theorem persist_items_rows_new {ts : Ts} {threads : List (String × ThreadData)}
    {bps : List BPItem} :
    ∀ {st st' : Store} {bp : BPItem}, bp ∈ bps → (bps.map BPItem.url).Nodup →
      persist_items ts threads st bps = .ok st' →
      blueprintRowsFor st bp.url = [] →
      blueprintRowsFor st' bp.url = [⟨bp.url, bp.name⟩] := by
  induction bps with
  | nil => intro st st' bp hmem; cases hmem
  | cons a rest ih =>
    intro st st' bp hmem hnodup h hnone
    have hnodup' : (∀ x ∈ rest, ¬x.url = a.url) ∧ (rest.map BPItem.url).Nodup := by
      simpa using hnodup
    obtain ⟨ha, hrest⟩ := hnodup'
    simp only [persist_items] at h
    cases hc : persist_item ts threads st a with
    | error e => rw [hc] at h; exact absurd h (by simp [Bind.bind, Except.bind])
    | ok s1 =>
      rw [hc] at h
      simp only [Bind.bind, Except.bind] at h
      cases List.mem_cons.mp hmem with
      | inl hab =>
        subst hab
        have hstep := persist_item_rows_new hc hnone
        have : blueprintRowsFor st' bp.url = blueprintRowsFor s1 bp.url := by
          apply persist_items_rows_preserved h
          exact Or.inl (by rw [hstep]; exact List.cons_ne_nil _ _)
        rw [this, hstep]
      | inr hbp =>
        have hne : a.url ≠ bp.url := fun he => ha bp hbp he.symm
        have hstep : blueprintRowsFor s1 bp.url = blueprintRowsFor st bp.url :=
          persist_item_rows_preserved hc (Or.inr (Ne.symm hne))
        exact ih hbp hrest h (hstep ▸ hnone)

/-! ## Resolution of a date to the greatest matching instant -/

theorem foldl_max_ts_some (l : List Ts) :
    ∀ m : Ts, ∃ t, l.foldl max_ts_acc (some m) = some t ∧ (t = m ∨ t ∈ l) ∧
      Ts.le m t = true ∧ ∀ x ∈ l, Ts.le x t = true := by
  induction l with
  | nil =>
    intro m
    exact ⟨m, rfl, Or.inl rfl, Ts.le_refl m, by intro x hx; cases hx⟩
  | cons x xs ih =>
    intro m
    by_cases hle : Ts.le m x = true
    · obtain ⟨t, heq, hmem, hxt, hall⟩ := ih x
      refine ⟨t, ?_, ?_, Ts.le_trans hle hxt, ?_⟩
      · simpa [List.foldl_cons, max_ts_acc, hle] using heq
      · rcases hmem with h | h
        · exact Or.inr (h ▸ List.mem_cons_self x xs)
        · exact Or.inr (List.mem_cons_of_mem x h)
      · intro y hy
        cases List.mem_cons.mp hy with
        | inl h => exact h ▸ hxt
        | inr h => exact hall y h
    · have hxm : Ts.le x m = true := by
        rcases Ts.le_total m x with h | h
        · exact absurd h hle
        · exact h
      obtain ⟨t, heq, hmem, hmt, hall⟩ := ih m
      refine ⟨t, ?_, ?_, hmt, ?_⟩
      · simpa [List.foldl_cons, max_ts_acc, hle] using heq
      · rcases hmem with h | h
        · exact Or.inl h
        · exact Or.inr (List.mem_cons_of_mem x h)
      · intro y hy
        cases List.mem_cons.mp hy with
        | inl h => exact h ▸ Ts.le_trans hxm hmt
        | inr h => exact hall y h

theorem latest_snapshot_none_of_no_run {s : Store} {user : String} {d : Nat}
    (h : s.userSnapshots.filter
      (fun r => decide (r.user_url = user ∧ r.snapshot_ts.day = d)) = []) :
    latest_snapshot_on s user d = none := by
  rw [latest_snapshot_on, h]
  rfl

theorem latest_snapshot_some {s : Store} {user : String} {d : Nat} {t : Ts}
    (h : latest_snapshot_on s user d = some t) :
    (∃ r ∈ s.userSnapshots, r.user_url = user ∧ r.snapshot_ts = t ∧ t.day = d) ∧
      ∀ r ∈ s.userSnapshots, r.user_url = user → r.snapshot_ts.day = d →
        Ts.le r.snapshot_ts t = true := by
  rw [latest_snapshot_on] at h
  cases hLc : (s.userSnapshots.filter
      (fun r => decide (r.user_url = user ∧ r.snapshot_ts.day = d))).map
      (fun r => r.snapshot_ts) with
  | nil => rw [hLc] at h; simp at h
  | cons x xs =>
    rw [hLc, List.foldl_cons] at h
    have hstep : max_ts_acc none x = some x := rfl
    rw [hstep] at h
    obtain ⟨t', heq, hmem, hxle, hall⟩ := foldl_max_ts_some xs x
    rw [heq] at h
    injection h with h
    subst h
    constructor
    · have htL : t' ∈ (s.userSnapshots.filter
          (fun r => decide (r.user_url = user ∧ r.snapshot_ts.day = d))).map
          (fun r => r.snapshot_ts) := by
        rw [hLc]
        rcases hmem with h | h
        · exact h ▸ List.mem_cons_self x xs
        · exact List.mem_cons_of_mem x h
      obtain ⟨r, hrf, hrt⟩ := List.mem_map.mp htL
      obtain ⟨hrs, hrp⟩ := List.mem_filter.mp hrf
      have hrp' : r.user_url = user ∧ r.snapshot_ts.day = d := by simpa using hrp
      exact ⟨r, hrs, hrp'.1, hrt, hrt ▸ hrp'.2⟩
    · intro r hr huser hday
      have hrtL : r.snapshot_ts ∈ (s.userSnapshots.filter
          (fun r => decide (r.user_url = user ∧ r.snapshot_ts.day = d))).map
          (fun r => r.snapshot_ts) :=
        List.mem_map_of_mem _ (List.mem_filter.mpr ⟨hr, by simp [huser, hday]⟩)
      rw [hLc] at hrtL
      cases List.mem_cons.mp hrtL with
      | inl h => exact h ▸ hxle
      | inr h => exact hall _ h

/-! ## The diff report -/

theorem qualifies_iff {s : Store} {ts1 ts2 : Ts} {b : BlueprintSnapshot} :
    qualifies s ts1 ts2 b = true ↔
      commentCount s ts1 b.blueprint_url < commentCount s ts2 b.blueprint_url := by
  simp [qualifies, sub_pos, Nat.cast_lt]

theorem mem_result_rows {s : Store} {ts1 ts2 : Ts} {r : List String} :
    r ∈ result_rows s ts1 ts2 ↔
      ∃ b ∈ itemRowsAt s ts2,
        commentCount s ts1 b.blueprint_url < commentCount s ts2 b.blueprint_url ∧
        r = [b.blueprint_url, b.name,
          toString ((commentCount s ts2 b.blueprint_url : Int) -
            (commentCount s ts1 b.blueprint_url : Int)),
          toString (commentCount s ts2 b.blueprint_url)] := by
  rw [result_rows, List.mem_filterMap]
  constructor
  · rintro ⟨b, hb, hsome⟩
    by_cases hq : qualifies s ts1 ts2 b = true
    · rw [if_pos hq] at hsome
      injection hsome with hsome
      exact ⟨b, hb, qualifies_iff.mp hq, hsome.symm⟩
    · rw [if_neg hq] at hsome
      cases hsome
  · rintro ⟨b, hb, hlt, hr⟩
    refine ⟨b, hb, ?_⟩
    rw [if_pos (qualifies_iff.mpr hlt), hr]
    rfl

theorem no_activity_string {s : Store} {user : String} {d1 d2 : Nat} {ts1 ts2 : Ts}
    (h1 : latest_snapshot_on s user d1 = some ts1)
    (h2 : latest_snapshot_on s user d2 = some ts2)
    (hrows : result_rows s ts1 ts2 = []) :
    blueprints_with_new_comments s user d1 d2 =
      "No blueprints received new comments in this period." := by
  rw [blueprints_with_new_comments, h1, h2]
  simp [hrows]

/-! ## The report never reads the stored total_comments field -/

theorem forall₂_filter {α β : Type} {R : α → β → Prop} {p : α → Bool} {q : β → Bool}
    (hpq : ∀ a b, R a b → p a = q b) :
    ∀ {l : List α} {l' : List β}, List.Forall₂ R l l' →
      List.Forall₂ R (l.filter p) (l'.filter q) := by
  intro l l' h
  induction h with
  | nil => exact List.Forall₂.nil
  | @cons a b l₁ l₂ hr htail ih =>
    by_cases hpa : p a = true
    · rw [List.filter_cons, List.filter_cons, if_pos hpa, if_pos ((hpq a b hr) ▸ hpa)]
      exact List.Forall₂.cons hr ih
    · rw [List.filter_cons, List.filter_cons, if_neg hpa, if_neg ((hpq a b hr) ▸ hpa)]
      exact ih

theorem result_rows_congr {s s' : Store} (hsb : same_but_totals s s') (ts1 ts2 : Ts) :
    result_rows s ts1 ts2 = result_rows s' ts1 ts2 := by
  obtain ⟨hb, hu, hc, hrel⟩ := hsb
  have hcount : ∀ ts url, commentCount s ts url = commentCount s' ts url := by
    intro ts url
    rw [commentCount, commentCount, hc]
  have hitems := forall₂_filter
    (p := fun r : BlueprintSnapshot => decide (r.snapshot_ts = ts2))
    (q := fun r : BlueprintSnapshot => decide (r.snapshot_ts = ts2))
    (fun a b hab => by
      show decide (a.snapshot_ts = ts2) = decide (b.snapshot_ts = ts2)
      rw [hab.1]) hrel
  rw [result_rows, result_rows]
  have key : ∀ {L : List BlueprintSnapshot} {L' : List BlueprintSnapshot},
      List.Forall₂ (fun a b : BlueprintSnapshot =>
        a.snapshot_ts = b.snapshot_ts ∧ a.blueprint_url = b.blueprint_url ∧
          a.name = b.name ∧ a.favourites = b.favourites) L L' →
      L.filterMap (fun b => if qualifies s ts1 ts2 b then some (report_row s ts1 ts2 b) else none) =
        L'.filterMap (fun b => if qualifies s' ts1 ts2 b then some (report_row s' ts1 ts2 b) else none) := by
    intro L L' hF
    induction hF with
    | nil => rfl
    | @cons a b l₁ l₂ hr htail ih =>
      have hq : qualifies s ts1 ts2 a = qualifies s' ts1 ts2 b := by
        rw [qualifies, qualifies, hcount, hcount, hr.2.1]
      have hrow : report_row s ts1 ts2 a = report_row s' ts1 ts2 b := by
        rw [report_row, report_row, hcount, hcount, hr.2.1, hr.2.2.1]
      by_cases hqq : qualifies s' ts1 ts2 b = true <;>
        simp [List.filterMap_cons, hq, hqq, hrow, ih]
  exact key hitems

theorem latest_snapshot_congr {s s' : Store} (hsb : same_but_totals s s')
    (user : String) (d : Nat) :
    latest_snapshot_on s' user d = latest_snapshot_on s user d := by
  rw [latest_snapshot_on, latest_snapshot_on, hsb.2.1]

theorem report_total_agnostic {s s' : Store} (hsb : same_but_totals s s')
    (user : String) (d1 d2 : Nat) :
    blueprints_with_new_comments s user d1 d2 =
      blueprints_with_new_comments s' user d1 d2 := by
  rw [blueprints_with_new_comments, blueprints_with_new_comments,
    latest_snapshot_congr hsb user d1, latest_snapshot_congr hsb user d2]
  cases latest_snapshot_on s user d1 with
  | none => rfl
  | some ts1 =>
    cases latest_snapshot_on s user d2 with
    | none => rfl
    | some ts2 => simp [result_rows_congr ⟨hsb.1, hsb.2.1, hsb.2.2.1, hsb.2.2.2⟩ ts1 ts2]

/-! ## The semaphore bound -/

theorem semValidFrom_bound (cap : Nat) :
    ∀ (p q : List FetchEv) (run : List Nat),
      semValidFrom cap run (p ++ q) = true → run.length ≤ cap →
      (runningFrom run p).length ≤ cap := by
  intro p
  induction p with
  | nil => intro q run _ hlen; exact hlen
  | cons e p ih =>
    intro q run hval hlen
    cases e with
    | start i =>
      rw [List.cons_append] at hval
      simp only [semValidFrom, Bool.and_eq_true] at hval
      obtain ⟨⟨h1, _⟩, h3⟩ := hval
      have hlt : run.length < cap := of_decide_eq_true h1
      have : (runningFrom (i :: run) p).length ≤ cap := ih q (i :: run) h3 (by simpa using hlt)
      simpa [runningFrom] using this
    | finish i =>
      rw [List.cons_append] at hval
      simp only [semValidFrom, Bool.and_eq_true] at hval
      obtain ⟨-, h3⟩ := hval
      have herase : (run.erase i).length ≤ cap :=
        le_trans (List.Sublist.length_le (List.erase_sublist i run)) hlen
      have : (runningFrom (run.erase i) p).length ≤ cap := ih q (run.erase i) h3 herase
      simpa [runningFrom] using this

/-! ## Claim theorems -/

/-- C1: capture persistence is all-or-nothing.  All writes of a run (the
CaptureRun row, every ItemSnapshot row, every CommentSnapshot row) happen in
the single transaction `snapshot_transaction`, entered only after all
fetching; if the capture fails for any reason (listing failure, fetch
failure, storage fault / constraint violation inside the transaction), the
error propagates and the visible store is the untouched pre-state, so a read
for that capture instant finds zero rows of every entity type. -/
theorem c1_capture_atomicity :
    (∀ (s : Store) (ts : Ts) (user : String) (listing : Except FetchErr (List BPItem))
        (w : String → PageWorld) (e : SnapErr),
      fresh_instant s ts →
      take_snapshot s ts user listing w = .error e →
      visible_store s ts user listing w = s ∧
        runRowsAt (visible_store s ts user listing w) ts = [] ∧
        itemRowsAt (visible_store s ts user listing w) ts = [] ∧
        commentRowsAt (visible_store s ts user listing w) ts = []) ∧
    (∀ (s : Store) (ts : Ts) (user : String) (bps : List BPItem)
        (threads : List (String × ThreadData)) (s' : Store),
      snapshot_transaction s ts user bps threads = .ok s' →
      s'.userSnapshots = s.userSnapshots ++ [⟨ts, user⟩] ∧
        s'.blueprintSnapshots = s.blueprintSnapshots ++ bps.map (mkBPRow ts threads) ∧
        s'.commentSnapshots = s.commentSnapshots ++ (bps.map (mkCommentRows ts threads)).flatten) := by
  constructor
  · intro s ts user listing w e hfresh herr
    have hv : visible_store s ts user listing w = s := by
      simp only [visible_store, herr]
    rw [hv]
    exact ⟨rfl, runRowsAt_nil_of_fresh hfresh, itemRowsAt_nil_of_fresh hfresh,
      commentRowsAt_nil_of_fresh hfresh⟩
  · intro s ts user bps threads s' h
    obtain ⟨-, h1, h2, h3⟩ := snapshot_transaction_ok h
    exact ⟨h1, h2, h3⟩

/-- Witness for C1: a fresh empty store; a listing holding the same url
twice makes the second `BlueprintSnapshot.objects.create` violate the
`(snapshot_ts, blueprint)` constraint, the transaction fails, and the
visible store is the untouched empty one. -/
theorem c1_capture_atomicity_witness :
    fresh_instant empty_store ⟨1, 0⟩ ∧
    take_snapshot empty_store ⟨1, 0⟩ "u" (.ok [⟨"b", "n", 0⟩, ⟨"b", "n", 0⟩])
      (fun _ => ⟨true, false, false, none⟩) =
      .error (.persistenceFailure .uniqueViolation) ∧
    visible_store empty_store ⟨1, 0⟩ "u" (.ok [⟨"b", "n", 0⟩, ⟨"b", "n", 0⟩])
      (fun _ => ⟨true, false, false, none⟩) = empty_store :=
  ⟨by simp [fresh_instant, empty_store], by rfl,
    (c1_capture_atomicity.1 empty_store ⟨1, 0⟩ "u"
      (.ok [⟨"b", "n", 0⟩, ⟨"b", "n", 0⟩]) (fun _ => ⟨true, false, false, none⟩)
      (.persistenceFailure .uniqueViolation) (by simp [fresh_instant, empty_store]) (by rfl)).1⟩

/-- C2 (amended): every failure condition caught by `get_comments_async`
(scroll timeout, missing iframe, extraction/parse failure) degrades to the
empty result, and if every item's navigation step succeeds the whole
concurrent fetch resolves with one entry per item; but a navigation failure
(`page.goto` raising) is not caught and propagates. -/
theorem c2_amended_degradation :
    (∀ w : PageWorld, w.gotoOk = true →
      get_comments_async w = .ok (resolved_thread w) ∧
        ((w.iframeAppears = false ∨ w.iframeHandle = false ∨ w.threadData = none) →
          resolved_thread w = ⟨0, []⟩)) ∧
    (∀ (bps : List BPItem) (w : String → PageWorld), (∀ u, (w u).gotoOk = true) →
      fetch_all_comments_concurrent w bps =
        .ok (bps.map (fun bp => (bp.url, resolved_thread (w bp.url))))) := by
  constructor
  · intro w h
    refine ⟨get_comments_async_ok_of_goto h, ?_⟩
    intro hcase
    rcases hcase with hc | hc | hc
    · simp [resolved_thread, get_comments_async, h, hc]
    · cases hif : w.iframeAppears <;>
        simp [resolved_thread, get_comments_async, h, hc, hif]
    · cases hif : w.iframeAppears <;> cases hih : w.iframeHandle <;>
        simp [resolved_thread, get_comments_async, h, hc, hif, hih]
  · intro bps w hres
    exact fetch_all_resolves hres bps

/-- Counterexample to C2 as stated: a navigation/network failure in
`page.goto` is one of `fetch_thread`'s failure conditions, yet it does not
resolve to the empty result — it raises, and through `asyncio.gather` it
aborts the whole fetch phase. -/
theorem c2_counterexample :
    get_comments_async ⟨false, true, true, some ⟨0, []⟩⟩ = .error .navigation ∧
    fetch_all_comments_concurrent (fun _ => ⟨false, true, true, some ⟨0, []⟩⟩)
      [⟨"u", "n", 0⟩] = .error .navigation :=
  ⟨rfl, rfl⟩

/-- Witness for the amended C2. -/
theorem c2_amended_degradation_witness :
    (⟨true, true, true, none⟩ : PageWorld).gotoOk = true ∧
    get_comments_async ⟨true, true, true, none⟩ =
      .ok (resolved_thread ⟨true, true, true, none⟩) ∧
    resolved_thread ⟨true, true, true, none⟩ = ⟨0, []⟩ ∧
    fetch_all_comments_concurrent demo_world demo_bps =
      .ok (demo_bps.map (fun bp => (bp.url, resolved_thread (demo_world bp.url)))) :=
  ⟨rfl, (c2_amended_degradation.1 ⟨true, true, true, none⟩ rfl).1,
    (c2_amended_degradation.1 ⟨true, true, true, none⟩ rfl).2 (Or.inr (Or.inr rfl)),
    c2_amended_degradation.2 demo_bps demo_world (fun _ => rfl)⟩

/-- C3: capture completeness.  For a listing with (per the collaborator
contract) unique urls, the fetch result map has exactly the listed urls as
keys, one entry per listed item; and a completed persistence leaves exactly
one ItemSnapshot row per listed item at that capture instant. -/
theorem c3_capture_completeness :
    (∀ (bps : List BPItem) (w : String → PageWorld) (m : List (String × ThreadData)),
      (bps.map BPItem.url).Nodup →
      fetch_all_comments_concurrent w bps = .ok m →
      m.map Prod.fst = bps.map BPItem.url ∧
        ∀ bp ∈ bps, (m.filter (fun p => decide (p.fst = bp.url))).length = 1) ∧
    (∀ (s : Store) (ts : Ts) (user : String) (bps : List BPItem)
        (w : String → PageWorld) (s' : Store),
      (bps.map BPItem.url).Nodup → (∀ u, (w u).gotoOk = true) → fresh_instant s ts →
      take_snapshot s ts user (.ok bps) w = .ok (s', ts) →
      ∀ bp ∈ bps, (itemRowsFor s' ts bp.url).length = 1) := by
  constructor
  · intro bps w m hnodup hok
    have hshape := fetch_all_ok_shape hok
    refine ⟨hshape, ?_⟩
    intro bp hmem
    have hmemurl : bp.url ∈ m.map Prod.fst := by
      rw [hshape]
      exact List.mem_map_of_mem _ hmem
    obtain ⟨pair, hpair, hpf⟩ := List.mem_map.mp hmemurl
    have hnodup' : (m.map Prod.fst).Nodup := by
      rw [hshape]
      exact hnodup
    rw [filter_key_single Prod.fst hnodup' hpair hpf]
    rfl
  · intro s ts user bps w s' hnodup hres hfresh h bp hmem
    rw [(take_snapshot_rows hnodup hres hfresh h bp hmem).1]
    rfl

/-- Witness for C3: a concrete one-item capture persisting exactly one
ItemSnapshot row. -/
theorem c3_capture_completeness_witness :
    (demo_bps.map BPItem.url).Nodup ∧
    fresh_instant empty_store ⟨1, 0⟩ ∧
    take_snapshot empty_store ⟨1, 0⟩ "u" (.ok demo_bps) demo_world =
      .ok (demo_store1, ⟨1, 0⟩) ∧
    (itemRowsFor demo_store1 ⟨1, 0⟩ "bx").length = 1 :=
  ⟨by decide, by simp [fresh_instant, empty_store], by rfl,
    c3_capture_completeness.2 empty_store ⟨1, 0⟩ "u" demo_bps demo_world demo_store1
      (by decide) (fun _ => rfl) (by simp [fresh_instant, empty_store]) (by rfl)
      ⟨"bx", "nx", 2⟩ (by decide)⟩

/-- C4: the diff report considers exactly the end run's ItemSnapshot rows,
counts CommentSnapshot rows for each at the start and end instants (0 when
none exist), includes an item iff the count strictly increased, reporting
(url, name, delta, end count); when nothing qualifies the distinguished
no-activity outcome is returned. -/
theorem c4_diff_computation (s : Store) (user : String) (d1 d2 : Nat) (ts1 ts2 : Ts)
    (h1 : latest_snapshot_on s user d1 = some ts1)
    (h2 : latest_snapshot_on s user d2 = some ts2) :
    spec_diff_rows s ts1 ts2 ∧
    (∀ url, commentRowsFor s ts1 url = [] → commentCount s ts1 url = 0) ∧
    (result_rows s ts1 ts2 = [] →
      blueprints_with_new_comments s user d1 d2 =
        "No blueprints received new comments in this period.") := by
  refine ⟨fun r => mem_result_rows, ?_, no_activity_string h1 h2⟩
  intro url hu
  have h : commentCount s ts1 url = (commentRowsFor s ts1 url).length := rfl
  rw [h, hu]
  rfl

/-- Witness for C4: item "ua" goes from 1 to 2 comment rows, item "ub"
exists only in the end run (start count 0); the theorem's characterization
holds and the emitted rows are exactly these two. -/
theorem c4_diff_computation_witness :
    latest_snapshot_on c4_store "u" 1 = some ⟨1, 5⟩ ∧
    latest_snapshot_on c4_store "u" 2 = some ⟨2, 0⟩ ∧
    spec_diff_rows c4_store ⟨1, 5⟩ ⟨2, 0⟩ ∧
    result_rows c4_store ⟨1, 5⟩ ⟨2, 0⟩ =
      [["ua", "a", "1", "2"], ["ub", "b", "1", "1"]] :=
  ⟨by decide, by decide,
    (c4_diff_computation c4_store "u" 1 2 ⟨1, 5⟩ ⟨2, 0⟩ (by decide) (by decide)).1,
    by decide⟩

/-- Counterexample to C5 as stated: a report whose two qualifying rows come
out in storage order "b" before "a" — not ascending by item name.  The code
never sorts `result_rows`. -/
theorem c5_counterexample :
    latest_snapshot_on c5_store "u" 1 = some ⟨1, 0⟩ ∧
    latest_snapshot_on c5_store "u" 2 = some ⟨2, 0⟩ ∧
    2 ≤ (result_rows c5_store ⟨1, 0⟩ ⟨2, 0⟩).length ∧
    names_ascending (result_rows c5_store ⟨1, 0⟩ ⟨2, 0⟩) = false := by
  decide

/-- C5 (amended): the emitted rows are the qualifying end-run ItemSnapshot
rows in storage-iteration order (the order the storage layer returns them) —
a subsequence of the end run's rows — with no sorting by name. -/
theorem c5_amended_storage_order (s : Store) (ts1 ts2 : Ts) :
    result_rows s ts1 ts2 =
      ((itemRowsAt s ts2).filter (qualifies s ts1 ts2)).map (report_row s ts1 ts2) ∧
    ((itemRowsAt s ts2).filter (qualifies s ts1 ts2)).Sublist (itemRowsAt s ts2) :=
  ⟨filterMap_if _ _ _, List.filter_sublist _⟩

/-- C6: ContentItem upsert is insert-if-absent.  A successful capture leaves
the Blueprint rows of every already-seen url untouched (reused, name kept,
no duplicate), creates one row with the captured name for each unseen url,
and two successful captures of the same user always carry two distinct
instants, both runs ending up on record. -/
theorem c6_content_item_upsert :
    (∀ (s : Store) (ts : Ts) (user : String) (bps : List BPItem)
        (w : String → PageWorld) (s' : Store),
      take_snapshot s ts user (.ok bps) w = .ok (s', ts) →
      ∀ u, blueprintRowsFor s u ≠ [] → blueprintRowsFor s' u = blueprintRowsFor s u) ∧
    (∀ (s : Store) (ts : Ts) (user : String) (bps : List BPItem)
        (w : String → PageWorld) (s' : Store),
      (bps.map BPItem.url).Nodup →
      take_snapshot s ts user (.ok bps) w = .ok (s', ts) →
      ∀ bp ∈ bps, blueprintRowsFor s bp.url = [] →
        blueprintRowsFor s' bp.url = [⟨bp.url, bp.name⟩]) ∧
    (∀ (s : Store) (ts1 ts2 : Ts) (user : String)
        (l1 l2 : Except FetchErr (List BPItem)) (w1 w2 : String → PageWorld)
        (s1 s2 : Store),
      take_snapshot s ts1 user l1 w1 = .ok (s1, ts1) →
      take_snapshot s1 ts2 user l2 w2 = .ok (s2, ts2) →
      ts1 ≠ ts2 ∧ (⟨ts1, user⟩ : UserSnapshot) ∈ s2.userSnapshots ∧
        (⟨ts2, user⟩ : UserSnapshot) ∈ s2.userSnapshots) := by
  have hstep : ∀ {s : Store} {ts : Ts} {user : String} {bps : List BPItem}
      {threads : List (String × ThreadData)} {s' : Store},
      snapshot_transaction s ts user bps threads = .ok s' →
      ∃ s1 : Store, s1.blueprints = s.blueprints ∧
        persist_items ts threads s1 bps = .ok s' := by
    intro s ts user bps threads s' ht
    rw [snapshot_transaction] at ht
    cases hc : create_user_snapshot s ts user with
    | error e => rw [hc] at ht; exact absurd ht (by simp [Bind.bind, Except.bind])
    | ok s1 =>
      rw [hc] at ht
      simp only [Bind.bind, Except.bind] at ht
      obtain ⟨-, hs1⟩ := create_user_snapshot_ok hc
      exact ⟨s1, by rw [hs1], ht⟩
  refine ⟨?_, ?_, ?_⟩
  · intro s ts user bps w s' h u hne
    obtain ⟨-, threads, -, ht⟩ := take_snapshot_ok h
    obtain ⟨s1, hbl, hp⟩ := hstep ht
    have hb1 : blueprintRowsFor s1 u = blueprintRowsFor s u := by
      rw [blueprintRowsFor, blueprintRowsFor, hbl]
    rw [persist_items_rows_preserved hp (Or.inl (by rw [hb1]; exact hne)), hb1]
  · intro s ts user bps w s' hnodup h bp hmem hnone
    obtain ⟨-, threads, -, ht⟩ := take_snapshot_ok h
    obtain ⟨s1, hbl, hp⟩ := hstep ht
    have hb1 : blueprintRowsFor s1 bp.url = blueprintRowsFor s bp.url := by
      rw [blueprintRowsFor, blueprintRowsFor, hbl]
    exact persist_items_rows_new hmem hnodup hp (by rw [hb1]; exact hnone)
  · intro s ts1 ts2 user l1 l2 w1 w2 s1 s2 h1 h2
    cases l1 with
    | error e => exact absurd h1 (by simp [take_snapshot])
    | ok bps1 =>
      cases l2 with
      | error e => exact absurd h2 (by simp [take_snapshot])
      | ok bps2 =>
        obtain ⟨-, th1, -, ht1⟩ := take_snapshot_ok h1
        obtain ⟨-, th2, -, ht2⟩ := take_snapshot_ok h2
        obtain ⟨-, hus1, -, -⟩ := snapshot_transaction_ok ht1
        obtain ⟨hg2, hus2, -, -⟩ := snapshot_transaction_ok ht2
        have hmem1 : (⟨ts1, user⟩ : UserSnapshot) ∈ s1.userSnapshots := by
          rw [hus1]
          exact List.mem_append_right _ (List.mem_singleton.mpr rfl)
        refine ⟨?_, ?_, ?_⟩
        · intro he
          subst he
          have := (List.any_eq_false.mp hg2) _ hmem1
          simp at this
        · rw [hus2]
          exact List.mem_append_left _ hmem1
        · rw [hus2]
          exact List.mem_append_right _ (List.mem_singleton.mpr rfl)

/-- Witness for C6: capturing url "x" (already known with name "old") leaves
its Blueprint row untouched; capturing unseen url "y" creates it with the
captured name; two successive captures carry distinct instants. -/
theorem c6_content_item_upsert_witness :
    take_snapshot ⟨[⟨"x", "old"⟩], [], [], []⟩ ⟨1, 0⟩ "u" (.ok [⟨"x", "new", 7⟩])
      (fun _ => ⟨true, false, false, none⟩) =
      .ok (⟨[⟨"x", "old"⟩], [⟨⟨1, 0⟩, "u"⟩], [⟨⟨1, 0⟩, "x", "new", 7, 0⟩], []⟩, ⟨1, 0⟩) ∧
    blueprintRowsFor ⟨[⟨"x", "old"⟩], [], [], []⟩ "x" ≠ [] ∧
    blueprintRowsFor ⟨[⟨"x", "old"⟩], [⟨⟨1, 0⟩, "u"⟩], [⟨⟨1, 0⟩, "x", "new", 7, 0⟩], []⟩ "x" =
      blueprintRowsFor ⟨[⟨"x", "old"⟩], [], [], []⟩ "x" ∧
    take_snapshot empty_store ⟨1, 0⟩ "u" (.ok []) (fun _ => ⟨true, false, false, none⟩) =
      .ok (⟨[], [⟨⟨1, 0⟩, "u"⟩], [], []⟩, ⟨1, 0⟩) ∧
    take_snapshot ⟨[], [⟨⟨1, 0⟩, "u"⟩], [], []⟩ ⟨1, 1⟩ "u" (.ok [])
      (fun _ => ⟨true, false, false, none⟩) =
      .ok (⟨[], [⟨⟨1, 0⟩, "u"⟩, ⟨⟨1, 1⟩, "u"⟩], [], []⟩, ⟨1, 1⟩) ∧
    (⟨1, 0⟩ : Ts) ≠ ⟨1, 1⟩ ∧
    (⟨⟨1, 0⟩, "u"⟩ : UserSnapshot) ∈
      (⟨[], [⟨⟨1, 0⟩, "u"⟩, ⟨⟨1, 1⟩, "u"⟩], [], []⟩ : Store).userSnapshots :=
  ⟨by rfl, by decide, c6_content_item_upsert.1 ⟨[⟨"x", "old"⟩], [], [], []⟩ ⟨1, 0⟩ "u"
      [⟨"x", "new", 7⟩] (fun _ => ⟨true, false, false, none⟩)
      ⟨[⟨"x", "old"⟩], [⟨⟨1, 0⟩, "u"⟩], [⟨⟨1, 0⟩, "x", "new", 7, 0⟩], []⟩ (by rfl) "x" (by decide),
    by rfl, by rfl,
    (c6_content_item_upsert.2.2 empty_store ⟨1, 0⟩ ⟨1, 1⟩ "u" (.ok []) (.ok [])
      (fun _ => ⟨true, false, false, none⟩) (fun _ => ⟨true, false, false, none⟩)
      ⟨[], [⟨⟨1, 0⟩, "u"⟩], [], []⟩ ⟨[], [⟨⟨1, 0⟩, "u"⟩, ⟨⟨1, 1⟩, "u"⟩], [], []⟩
      (by rfl) (by rfl)).1,
    (c6_content_item_upsert.2.2 empty_store ⟨1, 0⟩ ⟨1, 1⟩ "u" (.ok []) (.ok [])
      (fun _ => ⟨true, false, false, none⟩) (fun _ => ⟨true, false, false, none⟩)
      ⟨[], [⟨⟨1, 0⟩, "u"⟩], [], []⟩ ⟨[], [⟨⟨1, 0⟩, "u"⟩, ⟨⟨1, 1⟩, "u"⟩], [], []⟩
      (by rfl) (by rfl)).2.1⟩

/-- C7: deletion precision.  `delete_snapshot` removes exactly the
CommentSnapshot, ItemSnapshot and CaptureRun rows carrying the given
instant, returns the exact per-entity counts, leaves rows of every other
instant (and the Blueprint relation) untouched, and is a no-op with zero
counts when no row carries the instant. -/
theorem c7_deletion_precision (s : Store) (ts : Ts) :
    (delete_snapshot s ts).2 =
      ⟨(commentRowsAt s ts).length, (itemRowsAt s ts).length, (runRowsAt s ts).length⟩ ∧
    (delete_snapshot s ts).1.blueprints = s.blueprints ∧
    commentRowsAt (delete_snapshot s ts).1 ts = [] ∧
    itemRowsAt (delete_snapshot s ts).1 ts = [] ∧
    runRowsAt (delete_snapshot s ts).1 ts = [] ∧
    (∀ ts', ts' ≠ ts →
      commentRowsAt (delete_snapshot s ts).1 ts' = commentRowsAt s ts' ∧
        itemRowsAt (delete_snapshot s ts).1 ts' = itemRowsAt s ts' ∧
        runRowsAt (delete_snapshot s ts).1 ts' = runRowsAt s ts') ∧
    (runRowsAt s ts = [] ∧ itemRowsAt s ts = [] ∧ commentRowsAt s ts = [] →
      (delete_snapshot s ts).1 = s ∧ (delete_snapshot s ts).2 = ⟨0, 0, 0⟩) := by
  obtain ⟨bl, us, bs, cs⟩ := s
  have hgone : ∀ {α : Type} (l : List α) (f : α → Ts),
      (l.filter (fun r => !decide (f r = ts))).filter (fun r => decide (f r = ts)) = [] := by
    intro α l f
    rw [List.filter_filter, List.filter_eq_nil_iff]
    intro a _
    by_cases h : f a = ts <;> simp [h]
  have hkeep : ∀ {α : Type} (l : List α) (f : α → Ts) (ts' : Ts), ts' ≠ ts →
      (l.filter (fun r => !decide (f r = ts))).filter (fun r => decide (f r = ts')) =
        l.filter (fun r => decide (f r = ts')) := by
    intro α l f ts' hne
    rw [List.filter_filter]
    apply List.filter_congr
    intro a _
    by_cases h : f a = ts'
    · have : ¬f a = ts := fun hc => hne (by rw [← h, hc])
      simp [h, this, hne]
    · simp [h]
  refine ⟨rfl, rfl, hgone cs _, hgone bs _, hgone us _, ?_, ?_⟩
  · intro ts' hne
    exact ⟨hkeep cs _ ts' hne, hkeep bs _ ts' hne, hkeep us _ ts' hne⟩
  · rintro ⟨hu, hb, hc⟩
    have hself : ∀ {α : Type} (l : List α) (f : α → Ts),
        l.filter (fun r => decide (f r = ts)) = [] →
        l.filter (fun r => !decide (f r = ts)) = l := by
      intro α l f hnil
      rw [List.filter_eq_self]
      intro a ha
      simpa using List.filter_eq_nil_iff.mp hnil a ha
    constructor
    · show Store.mk bl
        (us.filter (fun r => !decide (r.snapshot_ts = ts)))
        (bs.filter (fun r => !decide (r.snapshot_ts = ts)))
        (cs.filter (fun r => !decide (r.snapshot_ts = ts))) = ⟨bl, us, bs, cs⟩
      rw [hself us _ hu, hself bs _ hb, hself cs _ hc]
    · show DeleteResult.mk (commentRowsAt ⟨bl, us, bs, cs⟩ ts).length
        (itemRowsAt ⟨bl, us, bs, cs⟩ ts).length
        (runRowsAt ⟨bl, us, bs, cs⟩ ts).length = ⟨0, 0, 0⟩
      rw [hu, hb, hc]
      rfl

/-- Witness for C7: deleting instant ⟨2,0⟩ from the two-run store removes
3 comment rows, 2 item rows and 1 run row, leaves the day-1 rows intact,
and deleting an unknown instant is a no-op with zero counts. -/
theorem c7_deletion_precision_witness :
    (delete_snapshot c4_store ⟨2, 0⟩).2 = ⟨3, 2, 1⟩ ∧
    (⟨1, 5⟩ : Ts) ≠ ⟨2, 0⟩ ∧
    itemRowsAt (delete_snapshot c4_store ⟨2, 0⟩).1 ⟨1, 5⟩ = itemRowsAt c4_store ⟨1, 5⟩ ∧
    runRowsAt c4_store ⟨9, 9⟩ = [] ∧ itemRowsAt c4_store ⟨9, 9⟩ = [] ∧
    commentRowsAt c4_store ⟨9, 9⟩ = [] ∧
    (delete_snapshot c4_store ⟨9, 9⟩).1 = c4_store ∧
    (delete_snapshot c4_store ⟨9, 9⟩).2 = ⟨0, 0, 0⟩ :=
  ⟨by decide, by decide,
    ((c7_deletion_precision c4_store ⟨2, 0⟩).2.2.2.2.2.1 ⟨1, 5⟩ (by decide)).2.1,
    by decide, by decide, by decide,
    ((c7_deletion_precision c4_store ⟨9, 9⟩).2.2.2.2.2.2
      ⟨by decide, by decide, by decide⟩).1,
    ((c7_deletion_precision c4_store ⟨9, 9⟩).2.2.2.2.2.2
      ⟨by decide, by decide, by decide⟩).2⟩

/-- C8: missing-date handling.  A start date with no run for the user yields
the distinguished "no snapshots for start date" outcome (checked first); a
missing end date yields the end-date outcome; and when a date resolves, the
resolved run is the user's run with the greatest capture instant on that
calendar date. -/
theorem c8_missing_date_handling (s : Store) (user : String) (d1 d2 : Nat) :
    (s.userSnapshots.filter
        (fun r => decide (r.user_url = user ∧ r.snapshot_ts.day = d1)) = [] →
      blueprints_with_new_comments s user d1 d2 =
        "No snapshots found for start date " ++ toString d1 ++ ".") ∧
    (∀ ts1, latest_snapshot_on s user d1 = some ts1 →
      s.userSnapshots.filter
          (fun r => decide (r.user_url = user ∧ r.snapshot_ts.day = d2)) = [] →
      blueprints_with_new_comments s user d1 d2 =
        "No snapshots found for end date " ++ toString d2 ++ ".") ∧
    (∀ t, latest_snapshot_on s user d1 = some t →
      (∃ r ∈ s.userSnapshots, r.user_url = user ∧ r.snapshot_ts = t ∧ t.day = d1) ∧
        ∀ r ∈ s.userSnapshots, r.user_url = user → r.snapshot_ts.day = d1 →
          Ts.le r.snapshot_ts t = true) := by
  refine ⟨?_, ?_, fun t ht => latest_snapshot_some ht⟩
  · intro hnil
    rw [blueprints_with_new_comments, latest_snapshot_none_of_no_run hnil]
  · intro ts1 h1 hnil
    rw [blueprints_with_new_comments, h1, latest_snapshot_none_of_no_run hnil]

/-- Witness for C8: day 7 has no run, so the report is the distinguished
start-date outcome; day 1 resolves to ⟨1,5⟩, the greater of that user's two
day-1 instants. -/
theorem c8_missing_date_handling_witness :
    c4_store.userSnapshots.filter
      (fun r => decide (r.user_url = "u" ∧ r.snapshot_ts.day = 7)) = [] ∧
    blueprints_with_new_comments c4_store "u" 7 2 =
      "No snapshots found for start date " ++ toString 7 ++ "." ∧
    latest_snapshot_on c4_store "u" 1 = some ⟨1, 5⟩ ∧
    Ts.le ⟨1, 0⟩ ⟨1, 5⟩ = true :=
  ⟨by decide, (c8_missing_date_handling c4_store "u" 7 2).1 (by decide), by decide,
    ((c8_missing_date_handling c4_store "u" 1 2).2.2 ⟨1, 5⟩ (by decide)).2
      ⟨⟨1, 0⟩, "u"⟩ (by decide) rfl rfl⟩

/-- C9 (amended): the fetch phase's admissible schedules are gated by
`asyncio.Semaphore(MAX_INSTANCES)`, so in every reachable state at most
`MAX_INSTANCES` fetches are in flight (default 6); `MAX_INSTANCES` is read
from ambient settings at module import, not passed as a parameter. -/
theorem c9_amended_bounded_concurrency (st : Settings) (bps : List BPItem)
    (tr p : List FetchEv)
    (hok : fetch_phase_schedule_ok st bps tr = true) (hp : p <+: tr) :
    inFlightAfter p ≤ MAX_INSTANCES st := by
  obtain ⟨q, hq⟩ := hp
  have hsem : semValidFrom (MAX_INSTANCES st) [] tr = true := by
    rw [fetch_phase_schedule_ok, Bool.and_eq_true] at hok
    exact hok.1
  subst hq
  have hb := semValidFrom_bound (MAX_INSTANCES st) p q [] hsem (Nat.zero_le _)
  have hra : inFlightAfter p = (runningFrom [] p).length := rfl
  rw [hra]
  exact hb

/-- Counterexample to C9 as stated: the cap in effect is a function of the
ambient module-level settings, not an explicit orchestrator parameter —
with identical explicit inputs, the very same two-starts schedule is
admissible under one ambient configuration and inadmissible under another. -/
theorem c9_counterexample :
    MAX_INSTANCES ⟨some 1⟩ = 1 ∧ MAX_INSTANCES ⟨none⟩ = 6 ∧
    fetch_phase_schedule_ok ⟨some 1⟩ [⟨"a", "na", 0⟩, ⟨"b", "nb", 0⟩]
      [.start 0, .start 1] = false ∧
    fetch_phase_schedule_ok ⟨none⟩ [⟨"a", "na", 0⟩, ⟨"b", "nb", 0⟩]
      [.start 0, .start 1] = true := by
  decide

/-- Witness for the amended C9. -/
theorem c9_amended_bounded_concurrency_witness :
    fetch_phase_schedule_ok ⟨none⟩ [⟨"a", "na", 0⟩, ⟨"b", "nb", 0⟩]
      [.start 0, .start 1, .finish 0, .finish 1] = true ∧
    [FetchEv.start 0, .start 1] <+: [.start 0, .start 1, .finish 0, .finish 1] ∧
    inFlightAfter [FetchEv.start 0, .start 1] ≤ MAX_INSTANCES ⟨none⟩ :=
  ⟨by decide, by decide,
    c9_amended_bounded_concurrency ⟨none⟩ [⟨"a", "na", 0⟩, ⟨"b", "nb", 0⟩]
      [.start 0, .start 1, .finish 0, .finish 1] [.start 0, .start 1]
      (by decide) (by decide)⟩

/-- C10: the persisted ItemSnapshot's `total_comments` is the fetched
thread's self-reported cursor total, while the number of CommentSnapshot
rows equals the length of the normalized (malformed-skipped) comments list —
two independent numbers that can differ — and the diff report counts
CommentSnapshot rows, never reading the stored `total_comments` field. -/
theorem c10_total_vs_row_count :
    (∀ (s : Store) (ts : Ts) (user : String) (bps : List BPItem)
        (w : String → PageWorld) (s' : Store),
      (bps.map BPItem.url).Nodup → (∀ u, (w u).gotoOk = true) → fresh_instant s ts →
      take_snapshot s ts user (.ok bps) w = .ok (s', ts) →
      ∀ bp ∈ bps,
        itemRowsFor s' ts bp.url =
          [⟨ts, bp.url, bp.name, bp.favorites, (resolved_thread (w bp.url)).total_comments⟩] ∧
        (commentRowsFor s' ts bp.url).length =
          (resolved_thread (w bp.url)).comments.length) ∧
    (∀ raw : RawThread,
      get_comments_async ⟨true, true, true, some raw⟩ =
        .ok ⟨raw.cursorTotal, raw.posts.filterMap id⟩) ∧
    (∀ (s s' : Store) (user : String) (d1 d2 : Nat), same_but_totals s s' →
      blueprints_with_new_comments s user d1 d2 =
        blueprints_with_new_comments s' user d1 d2) := by
  refine ⟨?_, fun raw => rfl,
    fun s s' user d1 d2 hsb => report_total_agnostic hsb user d1 d2⟩
  intro s ts user bps w s' hnodup hres hfresh h bp hmem
  obtain ⟨h1, h2⟩ := take_snapshot_rows hnodup hres hfresh h bp hmem
  exact ⟨h1, by rw [h2, List.length_map]⟩

/-- Witness for C10: the captured thread self-reports 5 comments but
delivers 1 well-formed record; the stored row records total 5 next to 1
comment row, and rewriting the stored total to 99 leaves the report
unchanged. -/
theorem c10_total_vs_row_count_witness :
    take_snapshot empty_store ⟨1, 0⟩ "u" (.ok demo_bps) demo_world =
      .ok (demo_store1, ⟨1, 0⟩) ∧
    itemRowsFor demo_store1 ⟨1, 0⟩ "bx" = [⟨⟨1, 0⟩, "bx", "nx", 2, 5⟩] ∧
    (commentRowsFor demo_store1 ⟨1, 0⟩ "bx").length = 1 ∧
    (5 : Nat) ≠ 1 ∧
    same_but_totals demo_store1 demo_store1_totals ∧
    blueprints_with_new_comments demo_store1 "u" 1 1 =
      blueprints_with_new_comments demo_store1_totals "u" 1 1 :=
  ⟨by rfl,
    (c10_total_vs_row_count.1 empty_store ⟨1, 0⟩ "u" demo_bps demo_world demo_store1
      (by decide) (fun _ => rfl) (by simp [fresh_instant, empty_store]) (by rfl)
      ⟨"bx", "nx", 2⟩ (by decide)).1,
    (c10_total_vs_row_count.1 empty_store ⟨1, 0⟩ "u" demo_bps demo_world demo_store1
      (by decide) (fun _ => rfl) (by simp [fresh_instant, empty_store]) (by rfl)
      ⟨"bx", "nx", 2⟩ (by decide)).2,
    by decide,
    ⟨rfl, rfl, rfl, List.Forall₂.cons ⟨rfl, rfl, rfl, rfl⟩ List.Forall₂.nil⟩,
    c10_total_vs_row_count.2.2 demo_store1 demo_store1_totals "u" 1 1
      ⟨rfl, rfl, rfl, List.Forall₂.cons ⟨rfl, rfl, rfl, rfl⟩ List.Forall₂.nil⟩⟩

end Monitoring
